import Mathlib

/-!
Verification development for the OpenAnalyst prompt-block engine.

The definitions below are a shallow embedding of the TypeScript source:
the `PromptBlock` entity (`src/core/blocks/domain/PromptBlock.ts`), the
system-prompt composer (`EnhanceSystemPrompt.ts`), the multi-source file
repository (`FileSystemPromptBlockRepository.ts`) and the caching load
use case (`LoadPromptBlocks.ts`).  JavaScript strings are modelled as
Lean `String` (lists of characters), and JavaScript truthiness of
strings (`x || y`) is modelled explicitly.  External collaborators
(file system, YAML parser) are modelled as oracles passed in as
function-valued parameters.
-/

namespace OpenAnalyst

/-! ## JavaScript string primitives -/

/-- The whitespace characters stripped by `String.prototype.trim`
(restricted to the code points that can occur in this development). -/
def jsIsWS (c : Char) : Bool :=
  c = ' ' || c = '\t' || c = '\n' || c = '\r' || c = '\x0b' || c = '\x0c' || c = ' '

/-- Strip leading and trailing whitespace from a character list. -/
def trimChars (l : List Char) : List Char :=
  ((l.dropWhile jsIsWS).reverse.dropWhile jsIsWS).reverse

/-- Model of JavaScript `s.trim()`: strips whitespace at both ends. -/
def jsTrim (s : String) : String := ⟨trimChars s.data⟩

/-- Strip only trailing whitespace (JavaScript `s.trimEnd()`); used to state
the specification's claim that only trailing whitespace is removed. -/
def jsTrimEnd (s : String) : String := ⟨(s.data.reverse.dropWhile jsIsWS).reverse⟩

/-- Whether the character list `p` is an initial segment of `s`. -/
def startsWithChars : List Char → List Char → Bool
  | _, [] => true
  | [], _ :: _ => false
  | c :: cs, p :: ps => c = p && startsWithChars cs ps

/-- Fuel-driven scan replacing every non-overlapping occurrence of `pat`
(scanning left to right, continuing after each replacement, never
rescanning replacement text) — the semantics of JavaScript
`s.replace(new RegExp(pat, "g"), rep)` for a pattern with no
metacharacters.  The fuel is an upper bound on the characters consumed. -/
def replaceAllAux (pat rep : List Char) : Nat → List Char → List Char
  | 0, s => s
  | _ + 1, [] => []
  | fuel + 1, c :: cs =>
    if !pat.isEmpty && startsWithChars (c :: cs) pat then
      rep ++ replaceAllAux pat rep fuel ((c :: cs).drop pat.length)
    else
      c :: replaceAllAux pat rep fuel cs

/-- Model of JavaScript global string replacement with a literal pattern. -/
def jsReplaceAll (s pat rep : String) : String :=
  ⟨replaceAllAux pat.data rep.data s.data.length s.data⟩

/-- Model of `x || y` for a possibly-undefined JavaScript string `x`:
`undefined` and the empty string are falsy. -/
def jsOrElse (a : Option String) (b : String) : String :=
  match a with
  | none => b
  | some s => if s = "" then b else s

/-- Association-list lookup modelling indexing a JavaScript record. -/
def lookupRecord (m : List (String × String)) (k : String) : Option String :=
  (m.find? (fun p => p.1 = k)).map Prod.snd

/-- Whether `s` ends with `suffix` (JavaScript `s.endsWith(suffix)`). -/
def strEndsWith (s suffix : String) : Bool :=
  startsWithChars s.data.reverse suffix.data.reverse

/-- Node `path.join` restricted to the forward-slash joining used here. -/
def pathJoin (a b : String) : String := a ++ "/" ++ b

/-! ## PromptCategory (`src/core/blocks/domain/PromptCategory.ts`) -/

/-- The closed category enumeration `PromptCategory`. -/
inductive PromptCategory where
  | analysis
  | visualization
  | reporting
  | methodology
deriving DecidableEq, Repr

/-- The string value of each `PromptCategory` enum member. -/
def categoryToString : PromptCategory → String
  | .analysis => "analysis"
  | .visualization => "visualization"
  | .reporting => "reporting"
  | .methodology => "methodology"

/-- Partial inverse of `categoryToString`; `isSome` is exactly the source's
`isValidCategory` membership test over `Object.values(PromptCategory)`. -/
def categoryOfString (s : String) : Option PromptCategory :=
  if s = "analysis" then some .analysis
  else if s = "visualization" then some .visualization
  else if s = "reporting" then some .reporting
  else if s = "methodology" then some .methodology
  else none

/-- `isValidCategory` from `PromptCategory.ts`. -/
def isValidCategory (s : String) : Bool := (categoryOfString s).isSome

/-! ## PromptBlock entity (`src/core/blocks/domain/PromptBlock.ts`) -/

/-- `PromptVariable`: a template variable declaration. -/
structure PromptVariable where
  name : String
  description : String
  required : Bool
  defaultValue : Option String
deriving DecidableEq, Repr

/-- `PromptOutput`: an expected-output descriptor.  The TypeScript field
`type` is rendered `outputType` (`type` is reserved in Lean). -/
structure PromptOutput where
  outputType : String
  description : String
  format : Option String
deriving DecidableEq, Repr

/-- `PromptBlockData`: raw block data before validation; optional fields are
`Option`s, mirroring the optional TypeScript interface fields. -/
structure PromptBlockData where
  name : String
  description : Option String
  category : String
  tags : Option (List String)
  prompt : String
  vars : Option (List PromptVariable)
  outputs : Option (List PromptOutput)
  priority : Option Int
  enabled : Option Bool
deriving DecidableEq, Repr

/-- `PromptBlockValidationError` (message plus the offending field). -/
structure PromptBlockValidationError where
  message : String
  field : Option String
deriving DecidableEq, Repr

/-- The validated, immutable `PromptBlock` entity. -/
structure PromptBlock where
  name : String
  description : String
  category : PromptCategory
  tags : List String
  prompt : String
  vars : List PromptVariable
  outputs : List PromptOutput
  priority : Int
  enabled : Bool
deriving DecidableEq, Repr

/-- A character admitted by the name pattern `/^[a-zA-Z0-9_-]+$/`. -/
def validNameChar (c : Char) : Bool := c.isAlphanum || c = '_' || c = '-'

/-- The test `name.match(/^[a-zA-Z0-9_-]+$/)` used by both
`PromptBlock.create` and `FileSystemPromptBlockRepository.loadByName`. -/
def isValidBlockName (s : String) : Bool :=
  !s.data.isEmpty && s.data.all validNameChar

namespace PromptBlock

/-- `PromptBlock.create`: the validating factory.  The guards appear in the
source's order; `Except.error` models the thrown
`PromptBlockValidationError`. -/
def create (data : PromptBlockData) : Except PromptBlockValidationError PromptBlock :=
  if jsTrim data.name = "" then
    .error ⟨"Name is required", some "name"⟩
  else if jsTrim data.prompt = "" then
    .error ⟨"Prompt is required", some "prompt"⟩
  else if jsTrim data.category = "" then
    .error ⟨"Category is required", some "category"⟩
  else
    match categoryOfString data.category with
    | none =>
      .error ⟨"Invalid category: " ++ data.category ++
        ". Must be one of: analysis, visualization, reporting, methodology", some "category"⟩
    | some category =>
      if !isValidBlockName data.name then
        .error ⟨"Name must contain only letters, numbers, underscores, and hyphens", some "name"⟩
      else if (data.vars.getD []).any (fun v => jsTrim v.name = "") then
        .error ⟨"Variable name is required", some "variables"⟩
      else
        let priority := data.priority.getD 50
        if priority < 0 ∨ priority > 100 then
          .error ⟨"Priority must be between 0 and 100", some "priority"⟩
        else
          .ok {
            name := jsTrim data.name
            description := jsOrElse (data.description.map jsTrim) ""
            category := category
            tags := data.tags.getD []
            prompt := jsTrim data.prompt
            vars := data.vars.getD []
            outputs := data.outputs.getD []
            priority := priority
            enabled := data.enabled.getD true
          }

/-- `hasVariables()`. -/
def hasVariables (b : PromptBlock) : Bool := !b.vars.isEmpty

/-- `isEnabled()`. -/
def isEnabled (b : PromptBlock) : Bool := b.enabled

/-- `resolvePrompt(variableValues?)`: substitutes each declared variable's
`{{name}}` placeholder by `variableValues?.[name] || defaultValue || ""`,
replacing all occurrences, one variable after another. -/
def resolvePrompt (b : PromptBlock) (variableValues : Option (List (String × String))) : String :=
  if b.vars.isEmpty then b.prompt
  else
    b.vars.foldl (fun resolved v =>
      let value := jsOrElse (variableValues.bind (fun m => lookupRecord m v.name))
        (jsOrElse v.defaultValue "")
      jsReplaceAll resolved ("\x7b\x7b" ++ v.name ++ "\x7d\x7d") value) b.prompt

/-- `toData()`: serialisation back to a `PromptBlockData`. -/
def toData (b : PromptBlock) : PromptBlockData :=
  { name := b.name
    description := some b.description
    category := categoryToString b.category
    tags := some b.tags
    prompt := b.prompt
    vars := some b.vars
    outputs := some b.outputs
    priority := some b.priority
    enabled := some b.enabled }

end PromptBlock

/-! ## System-prompt composer (`src/core/blocks/usecases/EnhanceSystemPrompt.ts`) -/

/-- `ActivePromptConfig`: a block activation.  `vars` renders the TypeScript
field `variables` (reserved in Lean); `priority` is the effective priority,
which the claims under study assume to be defined (the TypeScript field is
optional but always filled by `createActivePrompt`, and the composer
dereferences it with `priority!`). -/
structure ActivePromptConfig where
  block : PromptBlock
  vars : Option (List (String × String))
  priority : Int
deriving DecidableEq, Repr

/-- `ConflictResolution`: one record per conflict loser. -/
structure ConflictResolution where
  category : PromptCategory
  previousBlock : Option String
  selectedBlock : String
  reason : String
deriving DecidableEq, Repr

/-- `SystemPromptResult`: the composer's return value.  Lengths count
characters (`String.prototype.length` counts UTF-16 units; the two agree on
the non-astral text involved here). -/
structure SystemPromptResult where
  originalPrompt : String
  enhancedPrompt : String
  appliedPrompts : List ActivePromptConfig
  conflictResolution : List ConflictResolution
  totalLength : Int
  addedLength : Int
deriving DecidableEq, Repr

/-- Keep-first deduplication, carrying the set of already-seen elements:
this is the key sequence of a JavaScript `Map` built by insertion, which
iterates keys in first-insertion order. -/
def dedupFirstAux {α : Type} [DecidableEq α] (seen : List α) : List α → List α
  | [] => []
  | a :: as => if a ∈ seen then dedupFirstAux seen as else a :: dedupFirstAux (a :: seen) as

/-- Keep-first deduplication of a list. -/
def dedupFirst {α : Type} [DecidableEq α] (l : List α) : List α := dedupFirstAux [] l

namespace EnhanceSystemPrompt

/-- `createActivePrompt`: wraps a block, defaulting the effective priority
to the block's own priority. -/
def createActivePrompt (block : PromptBlock) (vars : Option (List (String × String)))
    (priority : Option Int) : ActivePromptConfig :=
  { block := block, vars := vars, priority := priority.getD block.priority }

/-- Insert `x` into a list already sorted by descending priority, before the
first element whose priority is not strictly greater.  Building the sorted
list with this insertion reproduces the stable descending sort of
`[...prompts].sort((a, b) => b.priority! - a.priority!)` (ECMAScript sorts
are stable, so equal-priority elements keep their input order). -/
def insertDesc (x : ActivePromptConfig) : List ActivePromptConfig → List ActivePromptConfig
  | [] => [x]
  | y :: ys => if x.priority < y.priority then y :: insertDesc x ys else x :: y :: ys

/-- `sortByPriority`: stable sort by descending effective priority. -/
def sortByPriority : List ActivePromptConfig → List ActivePromptConfig
  | [] => []
  | x :: xs => insertDesc x (sortByPriority xs)

/-- The category-grouping loop of `resolveConflicts` builds a JavaScript
`Map` from category to the configs of that category (pushed in input
order); the map iterates its keys in first-insertion order.  The resulting
association list is therefore the keep-first deduplication of the input's
category sequence, each key paired with the input's configs of that
category. -/
def groupByCategory (activePrompts : List ActivePromptConfig) :
    List (PromptCategory × List ActivePromptConfig) :=
  (dedupFirst (activePrompts.map (fun p => p.block.category))).map
    (fun c => (c, activePrompts.filter (fun q => q.block.category = c)))

/-- Per-category conflict resolution: a single config survives unsorted; a
contested category is sorted by descending priority, the head survives and
every remaining config yields a `ConflictResolution` record. -/
def resolveCategory (category : PromptCategory) (prompts : List ActivePromptConfig) :
    List ActivePromptConfig × List ConflictResolution :=
  match prompts with
  | [] => ([], [])
  | [p] => ([p], [])
  | p :: q :: rest =>
    match sortByPriority (p :: q :: rest) with
    | [] => ([], [])
    | selected :: conflicted =>
      ([selected],
        conflicted.map (fun conflictPrompt =>
          { category := category
            previousBlock := some conflictPrompt.block.name
            selectedBlock := selected.block.name
            reason := "Higher priority (" ++ toString selected.priority ++ " vs " ++
              toString conflictPrompt.priority ++ ")" }))

/-- The per-group accumulation loop of `resolveConflicts`: survivors and
conflict records are appended group by group in map-iteration order. -/
def resolveGroups : List (PromptCategory × List ActivePromptConfig) →
    List ActivePromptConfig × List ConflictResolution
  | [] => ([], [])
  | (c, ps) :: rest =>
    let cur := resolveCategory c ps
    let r := resolveGroups rest
    (cur.1 ++ r.1, cur.2 ++ r.2)

/-- `resolveConflicts`: at most one surviving config per category. -/
def resolveConflicts (activePrompts : List ActivePromptConfig) :
    List ActivePromptConfig × List ConflictResolution :=
  resolveGroups (groupByCategory activePrompts)

/-- `concatenatePrompts`: with no survivors the original prompt is returned
untouched; otherwise the original prompt is trimmed (`originalPrompt.trim()`
trims BOTH ends) and each resolved block body is appended after a blank
line, itself trimmed. -/
def concatenatePrompts (originalPrompt : String) (sortedPrompts : List ActivePromptConfig) :
    String :=
  if sortedPrompts.isEmpty then originalPrompt
  else
    sortedPrompts.foldl (fun enhanced promptConfig =>
      enhanced ++ "\n\n" ++ jsTrim (promptConfig.block.resolvePrompt promptConfig.vars))
      (jsTrim originalPrompt)

/-- `execute`: conflict resolution, priority ordering, substitution and
concatenation. -/
def execute (originalPrompt : String) (activePrompts : List ActivePromptConfig) :
    SystemPromptResult :=
  let startLength : Int := originalPrompt.data.length
  let resolved := resolveConflicts activePrompts
  let sortedPrompts := sortByPriority resolved.1
  let enhancedPrompt := concatenatePrompts originalPrompt sortedPrompts
  { originalPrompt := originalPrompt
    enhancedPrompt := enhancedPrompt
    appliedPrompts := sortedPrompts
    conflictResolution := resolved.2
    totalLength := enhancedPrompt.data.length
    addedLength := (enhancedPrompt.data.length : Int) - startLength }

end EnhanceSystemPrompt

/-! ## File-system repository (`FileSystemPromptBlockRepository.ts`) -/

/-- `BlockLoadResult`.  The port `IPromptBlockRepository.ts` declares
`source : "workspace" | "defaults" | "global"`, but the implementation
assigns through `as any`, so the field is modelled as an unrestricted
`String` in order to capture what the code actually stores there. -/
structure BlockLoadResult where
  success : Bool
  block : Option PromptBlock
  error : Option String
  source : String
  filePath : Option String
deriving DecidableEq, Repr

/-- The repository's constructor arguments plus the
`vscode.workspace.workspaceFolders` consulted by `getSearchPaths`
(their `uri.fsPath` values). -/
structure RepoConfig where
  workspacePath : Option String
  globalPath : Option String
  defaultsPath : Option String
  workspaceFolders : List String
deriving DecidableEq, Repr

/-- The external file-system and parsing capabilities consumed by the
repository.  `parseFile` models `fs.readFile` followed by
`YamlPromptBlockParser.parseFromContent` and `PromptBlock.create`
(exactly the body of `loadBlockFromFile`'s `try`), returning either the
validated block or the thrown error's message. -/
structure FileSys where
  isDir : String → Bool
  listDir : String → List String
  fileExists : String → Bool
  parseFile : String → Except String PromptBlock

/-- One memo entry of the repository's internal cache.  NOTE: `cacheBlock`
is invoked as `cacheBlock(cacheKey, block, filePath)`, so the `source`
field receives the file path. -/
structure RepoCacheEntry where
  block : PromptBlock
  timestamp : Int
  source : String
deriving DecidableEq, Repr

/-- The repository's name-keyed memo cache (a JavaScript `Map`). -/
abbrev RepoCache := List (String × RepoCacheEntry)

/-- Insertion-ordered `Map.set`: an existing key is overwritten in place,
a new key is appended. -/
def mapSet {α : Type} (m : List (String × α)) (k : String) (v : α) : List (String × α) :=
  match m with
  | [] => [(k, v)]
  | (k', v') :: rest => if k' = k then (k, v) :: rest else (k', v') :: mapSet rest k v

namespace FileSystemPromptBlockRepository

/-- `cacheTimeout = 5 * 60 * 1000`. -/
def cacheTimeout : Int := 5 * 60 * 1000

/-- `getSearchPaths`: workspace root, then workspace folders (deduplicated
by path), then global, then defaults — each extended with a `prompts`
sub-directory and tagged with its source name. -/
def getSearchPaths (cfg : RepoConfig) : List (String × String) :=
  let base :=
    match cfg.workspacePath with
    | some wp => [(pathJoin wp "prompts", "workspace")]
    | none => []
  let withFolders := cfg.workspaceFolders.foldl (fun acc folder =>
    let workspacePromptsPath := pathJoin (pathJoin folder ".oacode") "prompts"
    if acc.any (fun p => p.1 = workspacePromptsPath) then acc
    else acc ++ [(workspacePromptsPath, "workspace")]) base
  withFolders ++
    (match cfg.globalPath with
     | some gp => [(pathJoin gp "prompts", "global")]
     | none => []) ++
    (match cfg.defaultsPath with
     | some dp => [(pathJoin dp "prompts", "defaults")]
     | none => [])

/-- `loadBlockFromFile`: parse one file into a structured result; a
failure is returned as `success: false` with the error message, never
thrown. -/
def loadBlockFromFile (fs : FileSys) (filePath source : String) : BlockLoadResult :=
  match fs.parseFile filePath with
  | .ok block =>
    { success := true, block := some block, error := none, source := source,
      filePath := some filePath }
  | .error e =>
    { success := false, block := none, error := some e, source := source,
      filePath := some filePath }

/-- `loadBlocksFromDirectory`: enumerate `*.yaml` / `*.yml` files and keep
the successfully parsed blocks, skipping failures. -/
def loadBlocksFromDirectory (fs : FileSys) (directoryPath source : String) : List PromptBlock :=
  if ¬ fs.isDir directoryPath then []
  else
    let yamlFiles := (fs.listDir directoryPath).filter
      (fun file => strEndsWith file ".yaml" || strEndsWith file ".yml")
    yamlFiles.filterMap (fun filename =>
      let result := loadBlockFromFile fs (pathJoin directoryPath filename) source
      if result.success then result.block else none)

/-- `loadAll`: iterate the search paths REVERSED (lowest priority first),
overwriting the name-keyed map on collision, so the final map holds the
highest-priority source's block for each name. -/
def loadAll (cfg : RepoConfig) (fs : FileSys) : List PromptBlock :=
  let searchPaths := (getSearchPaths cfg).reverse
  let blocks := searchPaths.foldl (fun m ps =>
    (loadBlocksFromDirectory fs ps.1 ps.2).foldl (fun m block => mapSet m block.name block) m)
    ([] : List (String × PromptBlock))
  blocks.map Prod.snd

/-- `getCachedBlock`: a memo entry younger than the TTL is served;
otherwise the key is deleted and `null` returned. -/
def getCachedBlock (cache : RepoCache) (now : Int) (cacheKey : String) :
    Option (PromptBlock × String) × RepoCache :=
  match cache.find? (fun p => p.1 = cacheKey) with
  | some (_, cached) =>
    if now - cached.timestamp < cacheTimeout then (some (cached.block, cached.source), cache)
    else (none, cache.filter (fun p => ¬ (p.1 = cacheKey)))
  | none => (none, cache.filter (fun p => ¬ (p.1 = cacheKey)))

/-- `cacheBlock(cacheKey, block, source)` — every call site passes a FILE
PATH as the third argument, so that is what lands in `source`. -/
def cacheBlock (cache : RepoCache) (now : Int) (cacheKey : String) (block : PromptBlock)
    (source : String) : RepoCache :=
  mapSet cache cacheKey { block := block, timestamp := now, source := source }

/-- The `for (const { path: searchPath, source } of searchPaths)` loop of
`loadByName`: in each directory the `.yaml` file is tried, then the `.yml`
file; the FIRST EXISTING file's parse result is returned whether or not the
parse succeeded, and only a successful result is memoised. -/
def searchByName (fs : FileSys) (cache : RepoCache) (now : Int) (name : String) :
    List (String × String) → BlockLoadResult × RepoCache
  | [] =>
    ({ success := false, block := none, error := some ("Block '" ++ name ++ "' not found"),
       source := "workspace", filePath := none }, cache)
  | (searchPath, source) :: rest =>
    let filePath := pathJoin searchPath (name ++ ".yaml")
    if ¬ fs.fileExists filePath then
      let ymlPath := pathJoin searchPath (name ++ ".yml")
      if ¬ fs.fileExists ymlPath then searchByName fs cache now name rest
      else
        let result := loadBlockFromFile fs ymlPath source
        let cache' :=
          match result.success, result.block with
          | true, some b => cacheBlock cache now ("name:" ++ name) b ymlPath
          | _, _ => cache
        (result, cache')
    else
      let result := loadBlockFromFile fs filePath source
      let cache' :=
        match result.success, result.block with
        | true, some b => cacheBlock cache now ("name:" ++ name) b filePath
        | _, _ => cache
      (result, cache')

/-- `loadByName`: name-format validation before any file-system access, a
memo-cache probe (NOTE: a hit copies the entry's `source` — a file path —
into both `source` and `filePath` of the result), then the search loop. -/
def loadByName (cfg : RepoConfig) (fs : FileSys) (cache : RepoCache) (now : Int)
    (name : String) : BlockLoadResult × RepoCache :=
  if ¬ isValidBlockName name then
    ({ success := false, block := none, error := some "Invalid block name format",
       source := "workspace", filePath := none }, cache)
  else
    let cacheKey := "name:" ++ name
    match getCachedBlock cache now cacheKey with
    | (some (b, src), cache') =>
      ({ success := true, block := some b, error := none, source := src,
         filePath := some src }, cache')
    | (none, cache') => searchByName fs cache' now name (getSearchPaths cfg)

end FileSystemPromptBlockRepository

/-! ## Load use case (`src/core/blocks/usecases/LoadPromptBlocks.ts`)

Two models are given.  `LoadPromptBlocks` treats block lists as values and
captures the cache-validity and invalidation logic.  `LoadPromptBlocksRef`
makes array identity explicit (arrays live on a heap and are passed by
address) in order to reason about the defensive-copy / aliasing behaviour
of the cache.  In both, the injected `IPromptBlockRepository` is abstracted
by passing the repository's answer as an argument, and `Date.now()` by a
`now` argument. -/

namespace LoadPromptBlocks

/-- `CacheEntry`. -/
structure CacheEntry where
  blocks : List PromptBlock
  timestamp : Int
  version : Nat
deriving DecidableEq, Repr

/-- The use case's mutable state: the cache map and the version counter. -/
structure UCState where
  cache : List (String × CacheEntry)
  cacheVersion : Nat
deriving DecidableEq, Repr

/-- `cacheTimeout = 5 * 60 * 1000`. -/
def cacheTimeout : Int := 5 * 60 * 1000

/-- `LoadPromptBlocksResult` (the wall-clock `loadTime` field is omitted:
with a single time parameter it is identically zero). -/
structure LoadResult where
  blocks : List PromptBlock
  loadedCount : Nat
  errorCount : Nat
  fromCache : Bool
deriving DecidableEq, Repr

/-- `getCachedBlocks`: an entry is served only when it is younger than the
TTL AND carries the current version; otherwise the key is deleted. -/
def getCachedBlocks (s : UCState) (now : Int) (cacheKey : String) :
    Option CacheEntry × UCState :=
  match s.cache.find? (fun p => p.1 = cacheKey) with
  | some (_, cached) =>
    if now - cached.timestamp < cacheTimeout ∧ cached.version = s.cacheVersion then
      (some cached, s)
    else (none, { s with cache := s.cache.filter (fun p => ¬ (p.1 = cacheKey)) })
  | none => (none, { s with cache := s.cache.filter (fun p => ¬ (p.1 = cacheKey)) })

/-- `cacheBlocks`: store under the key with the current timestamp and
version (`[...blocks]` copies; in this value model copying is invisible —
see `LoadPromptBlocksRef` for the identity-aware account). -/
def cacheBlocks (s : UCState) (now : Int) (cacheKey : String) (blocks : List PromptBlock) :
    UCState :=
  { s with cache := mapSet s.cache cacheKey ⟨blocks, now, s.cacheVersion⟩ }

/-- `execute`: serve the `"all"` cache entry if valid, otherwise filter the
repository's answer (`repoBlocks` stands for `await repository.loadAll()`)
down to enabled blocks, cache and return it. -/
def execute (s : UCState) (now : Int) (repoBlocks : List PromptBlock) :
    LoadResult × UCState :=
  match getCachedBlocks s now "all" with
  | (some cached, s') =>
    ({ blocks := cached.blocks, loadedCount := cached.blocks.length, errorCount := 0,
       fromCache := true }, s')
  | (none, s') =>
    let enabledBlocks := repoBlocks.filter (fun b => b.isEnabled)
    let s'' := cacheBlocks s' now "all" enabledBlocks
    ({ blocks := enabledBlocks, loadedCount := enabledBlocks.length,
       errorCount := repoBlocks.length - enabledBlocks.length, fromCache := false }, s'')

/-- `invalidateCache`: clear every key and bump the version counter (the
call to `repository.clearCache()` acts on the repository's own state and is
outside this state type). -/
def invalidateCache (s : UCState) : UCState :=
  { cache := [], cacheVersion := s.cacheVersion + 1 }

end LoadPromptBlocks

namespace LoadPromptBlocksRef

/-- A cache entry holding the ADDRESS of the cached array. -/
structure HCacheEntry where
  addr : Nat
  timestamp : Int
  version : Nat
deriving DecidableEq, Repr

/-- Use-case state with an explicit heap of arrays: `heap[n]` is the
contents of the array whose reference is `n`; allocation appends. -/
structure HState where
  cache : List (String × HCacheEntry)
  cacheVersion : Nat
  heap : List (List PromptBlock)
deriving DecidableEq, Repr

/-- The result of `execute`, as the caller sees it: a REFERENCE to an
array of blocks. -/
structure HLoadResult where
  blocksAddr : Nat
  fromCache : Bool
deriving DecidableEq, Repr

/-- Allocate a fresh array on the heap. -/
def alloc (s : HState) (v : List PromptBlock) : Nat × HState :=
  (s.heap.length, { s with heap := s.heap ++ [v] })

/-- Read an array's contents through its reference. -/
def readHeap (s : HState) (a : Nat) : List PromptBlock := (s.heap[a]?).getD []

/-- Overwrite an array in place through its reference — what a caller does
when it mutates a returned array. -/
def writeHeap (s : HState) (a : Nat) (v : List PromptBlock) : HState :=
  { s with heap := s.heap.set a v }

/-- `getCachedBlocks` on the reference model (same validity logic as
`LoadPromptBlocks.getCachedBlocks`). -/
def getCached (s : HState) (now : Int) (cacheKey : String) : Option HCacheEntry × HState :=
  match s.cache.find? (fun p => p.1 = cacheKey) with
  | some (_, cached) =>
    if now - cached.timestamp < LoadPromptBlocks.cacheTimeout ∧ cached.version = s.cacheVersion
    then (some cached, s)
    else (none, { s with cache := s.cache.filter (fun p => ¬ (p.1 = cacheKey)) })
  | none => (none, { s with cache := s.cache.filter (fun p => ¬ (p.1 = cacheKey)) })

/-- `execute` with array identity made explicit.  A cache HIT returns the
cached entry's own reference (`blocks: cached.blocks`).  A miss allocates
the filtered array (`blocks.filter(...)` yields a fresh array), then
`cacheBlocks` stores `[...blocks]` — a second, freshly allocated copy — and
the filtered array's reference is returned. -/
def execute (s : HState) (now : Int) (repoBlocks : List PromptBlock) :
    HLoadResult × HState :=
  match getCached s now "all" with
  | (some cached, s') => ({ blocksAddr := cached.addr, fromCache := true }, s')
  | (none, s') =>
    let enabledBlocks := repoBlocks.filter (fun b => b.isEnabled)
    let arr := alloc s' enabledBlocks
    let copy := alloc arr.2 (readHeap arr.2 arr.1)
    let entry : HCacheEntry := ⟨copy.1, now, copy.2.cacheVersion⟩
    let s'' := { copy.2 with cache := mapSet copy.2.cache "all" entry }
    ({ blocksAddr := arr.1, fromCache := false }, s'')

end LoadPromptBlocksRef

/-! ## Specification-side definitions

Each of the following renders a sentence of the specification document (or
of a claim derived from it) as a Lean function, to be compared against the
source-embedded functions above. -/

/-- The number K of distinct categories spanned by an activation list. -/
def numCategories (l : List ActivePromptConfig) : Nat :=
  (dedupFirst (l.map (fun p => p.block.category))).length

/-- Join a list of strings with a separator. -/
def intercalateSep (sep : String) : List String → String
  | [] => ""
  | [s] => s
  | s :: rest => s ++ sep ++ intercalateSep sep rest

/-- Modelled from the spec's claim about concatenation: the original prompt
with ONLY ITS TRAILING whitespace trimmed (leading whitespace preserved),
followed by the trimmed block bodies, separated by one blank line. -/
def concatenatePromptsClaim (originalPrompt : String)
    (sortedPrompts : List ActivePromptConfig) : String :=
  if sortedPrompts.isEmpty then originalPrompt
  else
    intercalateSep "\n\n" (jsTrimEnd originalPrompt ::
      sortedPrompts.map (fun pc => jsTrim (pc.block.resolvePrompt pc.vars)))

/-- The amended concatenation claim: as `concatenatePromptsClaim` but with
the original prompt's SURROUNDING whitespace trimmed. -/
def concatenatePromptsAmended (originalPrompt : String)
    (sortedPrompts : List ActivePromptConfig) : String :=
  if sortedPrompts.isEmpty then originalPrompt
  else
    intercalateSep "\n\n" (jsTrim originalPrompt ::
      sortedPrompts.map (fun pc => jsTrim (pc.block.resolvePrompt pc.vars)))

/-- Modelled from the spec's claim about substitution: every placeholder of
a declared variable is replaced by the activation's supplied value WHENEVER
ONE IS SUPPLIED (including the empty string), else by the declared default,
else by the empty string. -/
def resolvePromptClaim (b : PromptBlock)
    (variableValues : Option (List (String × String))) : String :=
  b.vars.foldl (fun resolved v =>
    let value := ((variableValues.bind (fun m => lookupRecord m v.name)).getD
      (v.defaultValue.getD ""))
    jsReplaceAll resolved ("\x7b\x7b" ++ v.name ++ "\x7d\x7d") value) b.prompt

/-- The amended substitution claim: a NON-EMPTY supplied value wins; an
empty or missing supplied value falls back to the declared default (itself
defaulting to the empty string). -/
def resolvePromptAmended (b : PromptBlock)
    (variableValues : Option (List (String × String))) : String :=
  b.vars.foldl (fun resolved v =>
    let supplied := (variableValues.bind (fun m => lookupRecord m v.name)).getD ""
    let value := if supplied = "" then v.defaultValue.getD "" else supplied
    jsReplaceAll resolved ("\x7b\x7b" ++ v.name ++ "\x7d\x7d") value) b.prompt

/-- Modelled from the amended per-name lookup claim: the first candidate
file that EXISTS, trying the `.yaml` then the `.yml` name in each search
directory in priority order. -/
def firstFoundCandidate (fs : FileSys) (name : String) :
    List (String × String) → Option (String × String)
  | [] => none
  | (searchPath, source) :: rest =>
    let yamlPath := pathJoin searchPath (name ++ ".yaml")
    let ymlPath := pathJoin searchPath (name ++ ".yml")
    if fs.fileExists yamlPath then some (yamlPath, source)
    else if fs.fileExists ymlPath then some (ymlPath, source)
    else firstFoundCandidate fs name rest

/-- Modelled from the round-trip claim: the input data with the documented
defaults filled in for omitted optional fields. -/
def withDefaults (d : PromptBlockData) : PromptBlockData :=
  { d with
    description := some (d.description.getD "")
    tags := some (d.tags.getD [])
    vars := some (d.vars.getD [])
    outputs := some (d.outputs.getD [])
    priority := some (d.priority.getD 50)
    enabled := some (d.enabled.getD true) }

/-! ## Concrete example data used by counterexamples and witnesses -/

/-- An analysis block with priority 80. -/
def edaBlock : PromptBlock :=
  ⟨"eda-analysis", "", .analysis, [], "Perform comprehensive EDA analysis.", [], [], 80, true⟩

/-- A reporting block with priority 75. -/
def reportBlock : PromptBlock :=
  ⟨"statistical-reporting", "", .reporting, [], "Generate statistical reports.", [], [], 75, true⟩

/-- Analysis block `blockA` with priority 50, for the tie-break scenario. -/
def blockA : PromptBlock := ⟨"blockA", "", .analysis, [], "Alpha.", [], [], 50, true⟩

/-- Analysis block `blockB` with priority 50, for the tie-break scenario. -/
def blockB : PromptBlock := ⟨"blockB", "", .analysis, [], "Beta.", [], [], 50, true⟩

/-- A block whose body uses the variable `v` twice; `v` declares the
default value `"D"`. -/
def varBlock : PromptBlock :=
  ⟨"var-block", "", .analysis, [], "A \x7b\x7bv\x7d\x7d B \x7b\x7bv\x7d\x7d",
    [⟨"v", "", false, some "D"⟩], [], 50, true⟩

/-- The workspace version of the block named `x`. -/
def blockXW : PromptBlock := ⟨"x", "", .analysis, [], "Workspace version.", [], [], 50, true⟩

/-- The defaults version of the block named `x` (different content). -/
def blockXD : PromptBlock := ⟨"x", "", .analysis, [], "Defaults version.", [], [], 50, true⟩

/-- Repository configuration with a workspace root `ws` and a defaults root
`def`, no global root and no extra workspace folders. -/
def cfgWD : RepoConfig := ⟨some "ws", none, some "def", []⟩

/-- A file system where both `ws/prompts/x.yaml` and `def/prompts/x.yaml`
exist and parse (to different blocks). -/
def fsBoth : FileSys :=
  { isDir := fun p => p = "ws/prompts" || p = "def/prompts"
    listDir := fun p => if p = "ws/prompts" || p = "def/prompts" then ["x.yaml"] else []
    fileExists := fun p => p = "ws/prompts/x.yaml" || p = "def/prompts/x.yaml"
    parseFile := fun p =>
      if p = "ws/prompts/x.yaml" then .ok blockXW
      else if p = "def/prompts/x.yaml" then .ok blockXD
      else .error "no such file" }

/-- A file system where the workspace copy of `x.yaml` exists but FAILS to
parse while the defaults copy is valid. -/
def fsBadWorkspace : FileSys :=
  { isDir := fun p => p = "ws/prompts" || p = "def/prompts"
    listDir := fun p => if p = "ws/prompts" || p = "def/prompts" then ["x.yaml"] else []
    fileExists := fun p => p = "ws/prompts/x.yaml" || p = "def/prompts/x.yaml"
    parseFile := fun p =>
      if p = "ws/prompts/x.yaml" then .error "Schema validation failed: prompt must be a string"
      else if p = "def/prompts/x.yaml" then .ok blockXD
      else .error "no such file" }

/-- Raw block data whose `prompt` carries a trailing space — otherwise
fully valid (well-formed name, valid category, priority 50). -/
def dataUntrimmed : PromptBlockData :=
  ⟨"a", some "d", "analysis", some [], "p ", some [], some [], some 50, some true⟩

/-- Fully valid raw block data whose string fields are already trimmed. -/
def dataTrimmed : PromptBlockData :=
  ⟨"a", some "d", "analysis", some [], "p", some [], some [], some 50, some true⟩

deriving instance DecidableEq for Except

/-! ## Theorems -/

/-- The two fallbacks agree when the outer default is empty: JavaScript
`x || ""` is `x ?? ""` for a possibly-undefined string `x`. -/
theorem jsOrElse_empty (a : Option String) : jsOrElse a "" = a.getD "" := by
  cases a with
  | none => rfl
  | some s =>
    simp only [jsOrElse, Option.getD_some]
    split <;> simp_all

/-- The substitution value computed by `resolvePrompt` equals the amended
claim's value: a non-empty supplied value, else the declared default, else
the empty string. -/
theorem substitution_value_eq (supplied dflt : Option String) :
    jsOrElse supplied (jsOrElse dflt "") =
      (if supplied.getD "" = "" then dflt.getD "" else supplied.getD "") := by
  rw [jsOrElse_empty dflt]
  cases supplied with
  | none => simp [jsOrElse]
  | some s => simp [jsOrElse]

/-- C4 (counterexample): with variable `v` declaring default `"D"` and the
activation supplying the EMPTY string for `v`, the code substitutes `"D"`
(JavaScript `||` treats the empty string as falsy) while the claim demands
the supplied empty string; so `resolvePrompt` and the claim's substitution
disagree.  Both placeholders are replaced, exhibiting the all-occurrences
behaviour. -/
theorem c4_counterexample :
    PromptBlock.resolvePrompt varBlock (some [("v", "")]) = "A D B D" ∧
    resolvePromptClaim varBlock (some [("v", "")]) = "A  B " ∧
    PromptBlock.resolvePrompt varBlock (some [("v", "")]) ≠
      resolvePromptClaim varBlock (some [("v", "")]) := by
  decide

/-- C4 (amended): `resolvePrompt` replaces every occurrence of each declared
variable's placeholder with the activation's supplied value when that value
is NON-EMPTY, otherwise with the declared default (itself defaulting to the
empty string); for every block and every variable-value map. -/
theorem c4_resolve_prompt_amended (b : PromptBlock)
    (variableValues : Option (List (String × String))) :
    PromptBlock.resolvePrompt b variableValues = resolvePromptAmended b variableValues := by
  unfold PromptBlock.resolvePrompt resolvePromptAmended
  cases hv : b.vars with
  | nil => simp
  | cons x xs =>
    have hne : ((x :: xs : List PromptVariable).isEmpty) = false := rfl
    simp only [hne, Bool.false_eq_true, if_false]
    refine List.foldl_ext _ _ _ (fun acc v _ => ?_)
    simp only [substitution_value_eq]

/-- C3 (counterexample): with original prompt `" x"` (leading space) and a
single surviving block, `execute` returns `"x\n\nBeta."` — the LEADING
whitespace is trimmed too (`originalPrompt.trim()` trims both ends) — while
the claim's trailing-trim-only concatenation yields `" x\n\nBeta."`. -/
theorem c3_counterexample :
    (EnhanceSystemPrompt.execute " x" [⟨blockB, none, 50⟩]).enhancedPrompt = "x\n\nBeta." ∧
    concatenatePromptsClaim " x"
      (EnhanceSystemPrompt.execute " x" [⟨blockB, none, 50⟩]).appliedPrompts = " x\n\nBeta." ∧
    (EnhanceSystemPrompt.execute " x" [⟨blockB, none, 50⟩]).enhancedPrompt ≠
      concatenatePromptsClaim " x"
        (EnhanceSystemPrompt.execute " x" [⟨blockB, none, 50⟩]).appliedPrompts := by
  decide

/-- The search loop of `loadByName` returns the parse result of the first
candidate file that exists (`.yaml` before `.yml`, sources in priority
order) — whether or not that parse succeeds — and the not-found failure
when no candidate exists. -/
theorem searchByName_first_found (fs : FileSys) (cache : RepoCache) (now : Int)
    (name : String) (paths : List (String × String)) :
    (FileSystemPromptBlockRepository.searchByName fs cache now name paths).1 =
      match firstFoundCandidate fs name paths with
      | some (fp, src) => FileSystemPromptBlockRepository.loadBlockFromFile fs fp src
      | none =>
        ⟨false, none, some ("Block '" ++ name ++ "' not found"), "workspace", none⟩ := by
  induction paths with
  | nil => rfl
  | cons p rest ih =>
    obtain ⟨sp, src⟩ := p
    unfold FileSystemPromptBlockRepository.searchByName firstFoundCandidate
    by_cases h1 : fs.fileExists (pathJoin sp (name ++ ".yaml"))
    · simp [h1]
    · by_cases h2 : fs.fileExists (pathJoin sp (name ++ ".yml"))
      · simp [h1, h2]
      · simp only [h1, h2]
        simp [ih]

/-- C5 (amended): for a valid name whose memo-cache probe misses,
`loadByName` searches the ranked sources in priority order, trying the
`.yaml` and then the `.yml` extension in each candidate directory, and
returns the parse result of the FIRST FILE FOUND — a parse failure in a
higher-priority source is returned as a failure and lower-priority sources
are NOT consulted — or the not-found failure when no file exists. -/
theorem c5_lookup_amended (cfg : RepoConfig) (fs : FileSys) (cache : RepoCache)
    (now : Int) (name : String)
    (hvalid : isValidBlockName name = true)
    (hmiss : (FileSystemPromptBlockRepository.getCachedBlock cache now
      ("name:" ++ name)).1 = none) :
    (FileSystemPromptBlockRepository.loadByName cfg fs cache now name).1 =
      match firstFoundCandidate fs name (FileSystemPromptBlockRepository.getSearchPaths cfg)
      with
      | some (fp, src) => FileSystemPromptBlockRepository.loadBlockFromFile fs fp src
      | none =>
        ⟨false, none, some ("Block '" ++ name ++ "' not found"), "workspace", none⟩ := by
  have hg : FileSystemPromptBlockRepository.getCachedBlock cache now ("name:" ++ name) =
      (none, (FileSystemPromptBlockRepository.getCachedBlock cache now ("name:" ++ name)).2)
    := by
    rw [← hmiss]
  unfold FileSystemPromptBlockRepository.loadByName
  rw [if_neg (by simp [hvalid])]
  simp only []
  rw [hg]
  exact searchByName_first_found fs _ now name _

/-- C5 (counterexample): the workspace copy of `x.yaml` exists but fails to
parse while the defaults copy is a valid block; the claim says the
defaults block is returned, but `loadByName` returns the workspace parse
FAILURE (no block at all). -/
theorem c5_counterexample :
    fsBadWorkspace.fileExists "def/prompts/x.yaml" = true ∧
    fsBadWorkspace.parseFile "def/prompts/x.yaml" = .ok blockXD ∧
    (FileSystemPromptBlockRepository.loadByName cfgWD fsBadWorkspace [] 0 "x").1.success
      = false ∧
    (FileSystemPromptBlockRepository.loadByName cfgWD fsBadWorkspace [] 0 "x").1.block
      = none := by
  decide

/-- C5 (witness): the amended lookup contract evaluated at the concrete
bad-workspace scenario — the returned result is exactly the workspace
file's (failing) parse result. -/
theorem c5_witness :
    (FileSystemPromptBlockRepository.loadByName cfgWD fsBadWorkspace [] 0 "x").1 =
      FileSystemPromptBlockRepository.loadBlockFromFile fsBadWorkspace "ws/prompts/x.yaml"
        "workspace" := by
  have h := c5_lookup_amended cfgWD fsBadWorkspace [] 0 "x" (by decide) (by decide)
  rw [h]
  decide

/-- C2: when a block named `x` parses from both the workspace and the
defaults source (with different content), the workspace version wins BY
SOURCE RANK in both entry points: `loadAll` processes sources from lowest
to highest priority and unconditionally overwrites the name-keyed map
entry, so its result holds the workspace block; and `loadByName` searches
the workspace first, so it returns the workspace block tagged
`"workspace"`. -/
theorem c2_source_rank_wins (wp dp : String) (bW bD : PromptBlock) (fs : FileSys) (now : Int)
    (hn1 : bW.name = "x") (hn2 : bD.name = "x")
    (hd1 : fs.isDir (pathJoin wp "prompts") = true)
    (hd2 : fs.isDir (pathJoin dp "prompts") = true)
    (hl1 : fs.listDir (pathJoin wp "prompts") = ["x.yaml"])
    (hl2 : fs.listDir (pathJoin dp "prompts") = ["x.yaml"])
    (hp1 : fs.parseFile (pathJoin (pathJoin wp "prompts") "x.yaml") = .ok bW)
    (hp2 : fs.parseFile (pathJoin (pathJoin dp "prompts") "x.yaml") = .ok bD)
    (he1 : fs.fileExists (pathJoin (pathJoin wp "prompts") "x.yaml") = true) :
    FileSystemPromptBlockRepository.loadAll ⟨some wp, none, some dp, []⟩ fs = [bW] ∧
    (FileSystemPromptBlockRepository.loadByName ⟨some wp, none, some dp, []⟩ fs [] now "x").1
      = ⟨true, some bW, none, "workspace", some (pathJoin (pathJoin wp "prompts") "x.yaml")⟩
    := by
  have hse : strEndsWith "x.yaml" ".yaml" = true := rfl
  have hv : isValidBlockName "x" = true := rfl
  constructor
  · simp [FileSystemPromptBlockRepository.loadAll,
      FileSystemPromptBlockRepository.getSearchPaths,
      FileSystemPromptBlockRepository.loadBlocksFromDirectory,
      FileSystemPromptBlockRepository.loadBlockFromFile, mapSet,
      hd1, hd2, hl1, hl2, hp1, hp2, hn1, hn2, hse]
  · simp [FileSystemPromptBlockRepository.loadByName,
      FileSystemPromptBlockRepository.searchByName,
      FileSystemPromptBlockRepository.getCachedBlock,
      FileSystemPromptBlockRepository.getSearchPaths,
      FileSystemPromptBlockRepository.loadBlockFromFile,
      hv, he1, hp1]

/-- C2 (witness): the concrete two-source file system `fsBoth` yields the
workspace version of `x` from both `loadAll` and `loadByName`. -/
theorem c2_witness :
    FileSystemPromptBlockRepository.loadAll ⟨some "ws", none, some "def", []⟩ fsBoth
      = [blockXW] ∧
    (FileSystemPromptBlockRepository.loadByName ⟨some "ws", none, some "def", []⟩ fsBoth
      [] 0 "x").1 =
      ⟨true, some blockXW, none, "workspace",
        some (pathJoin (pathJoin "ws" "prompts") "x.yaml")⟩ :=
  c2_source_rank_wins "ws" "def" blockXW blockXD fsBoth 0 rfl rfl (by decide) (by decide)
    (by decide) (by decide) (by decide) (by decide) (by decide)

/-- Folding the separator-append step is the same as interleaving the
separator between the accumulator and the mapped elements. -/
theorem foldl_append_sep (f : ActivePromptConfig → String) (sep : String) :
    ∀ (l : List ActivePromptConfig) (acc : String),
      l.foldl (fun enhanced pc => enhanced ++ sep ++ f pc) acc =
        intercalateSep sep (acc :: l.map f) := by
  intro l
  induction l with
  | nil => intro acc; rfl
  | cons x xs ih =>
    intro acc
    rw [List.map_cons, List.foldl_cons, ih (acc ++ sep ++ f x)]
    cases hxs : xs.map f with
    | nil => rfl
    | cons y ys => simp only [intercalateSep, String.append_assoc]

/-- `concatenatePrompts` agrees with the amended concatenation claim. -/
theorem concatenatePrompts_eq_amended (originalPrompt : String)
    (sortedPrompts : List ActivePromptConfig) :
    EnhanceSystemPrompt.concatenatePrompts originalPrompt sortedPrompts =
      concatenatePromptsAmended originalPrompt sortedPrompts := by
  unfold EnhanceSystemPrompt.concatenatePrompts concatenatePromptsAmended
  cases sortedPrompts with
  | nil => rfl
  | cons x xs =>
    simp only [List.isEmpty_cons, Bool.false_eq_true, if_false]
    exact foldl_append_sep _ "\n\n" (x :: xs) (jsTrim originalPrompt)

/-- Inserting into a list is a permutation of consing. -/
theorem insertDesc_perm (x : ActivePromptConfig) (l : List ActivePromptConfig) :
    List.Perm (EnhanceSystemPrompt.insertDesc x l) (x :: l) := by
  induction l with
  | nil => exact List.Perm.refl _
  | cons y ys ih =>
    unfold EnhanceSystemPrompt.insertDesc
    split
    · exact (ih.cons y).trans (List.Perm.swap x y ys)
    · exact List.Perm.refl _

/-- The stable sort permutes its input. -/
theorem sortByPriority_perm (l : List ActivePromptConfig) :
    List.Perm (EnhanceSystemPrompt.sortByPriority l) l := by
  induction l with
  | nil => exact List.Perm.refl _
  | cons x xs ih => exact (insertDesc_perm x _).trans (ih.cons x)

/-- The stable sort preserves length. -/
theorem sortByPriority_length (l : List ActivePromptConfig) :
    (EnhanceSystemPrompt.sortByPriority l).length = l.length :=
  (sortByPriority_perm l).length_eq

/-- Inserting into a descending-sorted list keeps it descending-sorted. -/
theorem insertDesc_pairwise (x : ActivePromptConfig) (l : List ActivePromptConfig)
    (h : l.Pairwise (fun a b => b.priority ≤ a.priority)) :
    (EnhanceSystemPrompt.insertDesc x l).Pairwise (fun a b => b.priority ≤ a.priority) := by
  induction l with
  | nil => simp [EnhanceSystemPrompt.insertDesc]
  | cons y ys ih =>
    rw [List.pairwise_cons] at h
    unfold EnhanceSystemPrompt.insertDesc
    split
    · rename_i hlt
      rw [List.pairwise_cons]
      refine ⟨fun z hz => ?_, ih h.2⟩
      rcases List.mem_cons.mp ((insertDesc_perm x ys).mem_iff.mp hz) with hzx | hzy
      · exact hzx ▸ le_of_lt hlt
      · exact h.1 z hzy
    · rename_i hge
      rw [List.pairwise_cons]
      exact ⟨fun z hz => by
        rcases List.mem_cons.mp hz with hzy | hzy
        · exact hzy ▸ le_of_not_lt hge
        · exact le_trans (h.1 z hzy) (le_of_not_lt hge), List.pairwise_cons.mpr h⟩

/-- `sortByPriority` sorts by descending effective priority. -/
theorem sortByPriority_pairwise (l : List ActivePromptConfig) :
    (EnhanceSystemPrompt.sortByPriority l).Pairwise (fun a b => b.priority ≤ a.priority) := by
  induction l with
  | nil => simp [EnhanceSystemPrompt.sortByPriority]
  | cons x xs ih => exact insertDesc_pairwise x _ ih

/-- C3 (amended): `execute` returns the original prompt with its
SURROUNDING whitespace trimmed (not only trailing), followed by each
survivor's substituted body trimmed, separated by exactly one blank line,
in effective-priority-descending order; with zero survivors the original
prompt is returned character-for-character unmodified. -/
theorem c3_concatenation_amended (originalPrompt : String)
    (activePrompts : List ActivePromptConfig) :
    (EnhanceSystemPrompt.execute originalPrompt activePrompts).enhancedPrompt =
      concatenatePromptsAmended originalPrompt
        (EnhanceSystemPrompt.execute originalPrompt activePrompts).appliedPrompts ∧
    ((EnhanceSystemPrompt.execute originalPrompt activePrompts).appliedPrompts).Pairwise
      (fun a b => b.priority ≤ a.priority) := by
  constructor
  · exact concatenatePrompts_eq_amended originalPrompt _
  · exact sortByPriority_pairwise _

/-- C8: when exactly two active configs share a category and have equal
effective priority, the stable sort leaves them in input order, so the
FIRST-encountered config survives and the second is recorded as the loser
against it. -/
theorem c8_tie_first_wins (a b : ActivePromptConfig)
    (hcat : a.block.category = b.block.category) (hp : a.priority = b.priority) :
    (EnhanceSystemPrompt.resolveConflicts [a, b]).1 = [a] ∧
    ∀ cf ∈ (EnhanceSystemPrompt.resolveConflicts [a, b]).2,
      cf.category = a.block.category ∧ cf.selectedBlock = a.block.name ∧
        cf.previousBlock = some b.block.name := by
  have hins : EnhanceSystemPrompt.insertDesc a [b] = [a, b] := by
    unfold EnhanceSystemPrompt.insertDesc
    rw [hp]
    simp
  have hsort : EnhanceSystemPrompt.sortByPriority [a, b] = [a, b] := by
    show EnhanceSystemPrompt.insertDesc a
      (EnhanceSystemPrompt.insertDesc b (EnhanceSystemPrompt.sortByPriority [])) = [a, b]
    exact hins
  have hgroup : EnhanceSystemPrompt.groupByCategory [a, b] = [(a.block.category, [a, b])] := by
    unfold EnhanceSystemPrompt.groupByCategory
    simp [dedupFirst, dedupFirstAux, List.filter, ← hcat]
  have hres : EnhanceSystemPrompt.resolveConflicts [a, b] =
      ([a], [⟨a.block.category, some b.block.name, a.block.name,
        "Higher priority (" ++ toString a.priority ++ " vs " ++ toString b.priority ++ ")"⟩]) := by
    unfold EnhanceSystemPrompt.resolveConflicts
    rw [hgroup]
    simp only [EnhanceSystemPrompt.resolveGroups, EnhanceSystemPrompt.resolveCategory, hsort]
    simp
  rw [hres]
  refine ⟨rfl, fun cf hcf => ?_⟩
  rcases List.mem_singleton.mp hcf with rfl
  exact ⟨rfl, rfl, rfl⟩

/-- C8 (witness): with the concrete same-category configs
`[blockA(p=50), blockB(p=50)]`, the survivor is `blockA`. -/
theorem c8_witness :
    (EnhanceSystemPrompt.resolveConflicts
      [⟨blockA, none, 50⟩, ⟨blockB, none, 50⟩]).1 = [⟨blockA, none, 50⟩] :=
  (c8_tie_first_wins ⟨blockA, none, 50⟩ ⟨blockB, none, 50⟩ rfl rfl).1

/-- C7: `invalidateCache` empties the cache and bumps the version counter;
a `getCachedBlocks` probe right after an invalidation yields nothing, so an
`execute` call made after `invalidateCache` is never served from the cache
(whatever the TTL situation) and instead returns the repository's enabled
blocks; and in any state, an entry is served only while its age is below
the TTL AND its recorded version equals the current version counter. -/
theorem c7_invalidation (s : LoadPromptBlocks.UCState) (now : Int) (key : String)
    (repoBlocks : List PromptBlock) :
    (LoadPromptBlocks.invalidateCache s).cache = [] ∧
    (LoadPromptBlocks.invalidateCache s).cacheVersion = s.cacheVersion + 1 ∧
    (LoadPromptBlocks.getCachedBlocks (LoadPromptBlocks.invalidateCache s) now key).1 = none ∧
    (LoadPromptBlocks.execute (LoadPromptBlocks.invalidateCache s) now repoBlocks).1.fromCache
      = false ∧
    (LoadPromptBlocks.execute (LoadPromptBlocks.invalidateCache s) now repoBlocks).1.blocks =
      repoBlocks.filter (fun b => b.isEnabled) ∧
    (∀ e, (LoadPromptBlocks.getCachedBlocks s now key).1 = some e →
      now - e.timestamp < LoadPromptBlocks.cacheTimeout ∧ e.version = s.cacheVersion) := by
  refine ⟨rfl, rfl, rfl, rfl, rfl, fun e he => ?_⟩
  unfold LoadPromptBlocks.getCachedBlocks at he
  cases hf : s.cache.find? (fun p => p.1 = key) with
  | none => rw [hf] at he; exact absurd he (by simp)
  | some kv =>
    rw [hf] at he
    by_cases hc : now - kv.2.timestamp < LoadPromptBlocks.cacheTimeout ∧
        kv.2.version = s.cacheVersion
    · simp only [hc, if_pos, and_true] at he
      cases he
      exact hc
    · simp [hc] at he

/-- C7 (witness): a concrete state whose `"all"` entry is currently valid
(it is served before invalidation), yet a probe after `invalidateCache`
finds nothing. -/
theorem c7_witness :
    (LoadPromptBlocks.getCachedBlocks
      (LoadPromptBlocks.invalidateCache ⟨[("all", ⟨[], 0, 0⟩)], 0⟩) 0 "all").1 = none ∧
    ((0 : Int) - 0 < LoadPromptBlocks.cacheTimeout ∧ 0 = 0) := by
  have h := c7_invalidation ⟨[("all", ⟨[], 0, 0⟩)], 0⟩ 0 "all" []
  exact ⟨h.2.2.1, h.2.2.2.2.2 ⟨[], 0, 0⟩ (by decide)⟩

/-- `Map.set` followed by a lookup of the same key finds the new value. -/
theorem find?_mapSet {α : Type} (m : List (String × α)) (k : String) (v : α) :
    (mapSet m k v).find? (fun p => p.1 = k) = some (k, v) := by
  induction m with
  | nil => simp [mapSet, List.find?]
  | cons kv rest ih =>
    obtain ⟨k', v'⟩ := kv
    by_cases h : k' = k
    · simp [mapSet, h, List.find?]
    · simp [mapSet, h, List.find?, ih]

/-- C10 (amended): on a cache MISS, `execute` is defensive — the cache
entry written holds a FRESH array, distinct from the returned one but with
the same contents, so mutating the returned array cannot change the cached
collection.  (On a HIT the returned array IS the cached one; see the
counterexample.) -/
theorem c10_defensive_copy_amended (s : LoadPromptBlocksRef.HState) (now : Int)
    (repoBlocks : List PromptBlock)
    (hmiss : (LoadPromptBlocksRef.getCached s now "all").1 = none) :
    (LoadPromptBlocksRef.execute s now repoBlocks).1.fromCache = false ∧
    ∃ e : LoadPromptBlocksRef.HCacheEntry,
      ((LoadPromptBlocksRef.execute s now repoBlocks).2.cache.find? (fun p => p.1 = "all"))
        = some ("all", e) ∧
      e.addr ≠ (LoadPromptBlocksRef.execute s now repoBlocks).1.blocksAddr ∧
      LoadPromptBlocksRef.readHeap (LoadPromptBlocksRef.execute s now repoBlocks).2 e.addr =
        LoadPromptBlocksRef.readHeap (LoadPromptBlocksRef.execute s now repoBlocks).2
          (LoadPromptBlocksRef.execute s now repoBlocks).1.blocksAddr := by
  have hg : LoadPromptBlocksRef.getCached s now "all" =
      (none, (LoadPromptBlocksRef.getCached s now "all").2) := by
    rw [← hmiss]
  set s' := (LoadPromptBlocksRef.getCached s now "all").2 with hs'
  set enabled := repoBlocks.filter (fun b => b.isEnabled) with hen
  have hexec : LoadPromptBlocksRef.execute s now repoBlocks =
      ({ blocksAddr := s'.heap.length, fromCache := false },
       { cache := mapSet s'.cache "all" ⟨s'.heap.length + 1, now, s'.cacheVersion⟩,
         cacheVersion := s'.cacheVersion,
         heap := s'.heap ++ [enabled, enabled] }) := by
    unfold LoadPromptBlocksRef.execute
    rw [hg]
    simp [LoadPromptBlocksRef.alloc, LoadPromptBlocksRef.readHeap, hen]
  rw [hexec]
  refine ⟨rfl, ⟨s'.heap.length + 1, now, s'.cacheVersion⟩,
    find?_mapSet s'.cache "all" _, by simp, ?_⟩
  show ((s'.heap ++ [enabled, enabled])[s'.heap.length + 1]?).getD [] =
      ((s'.heap ++ [enabled, enabled])[s'.heap.length]?).getD []
  rw [List.getElem?_append, List.getElem?_append]
  simp

/-- C10 (witness): the amended miss-path property at the empty state. -/
theorem c10_witness :
    (LoadPromptBlocksRef.execute ⟨[], 0, []⟩ 0 [edaBlock]).1.fromCache = false ∧
    ∃ e : LoadPromptBlocksRef.HCacheEntry,
      ((LoadPromptBlocksRef.execute ⟨[], 0, []⟩ 0 [edaBlock]).2.cache.find?
        (fun p => p.1 = "all")) = some ("all", e) ∧
      e.addr ≠ (LoadPromptBlocksRef.execute ⟨[], 0, []⟩ 0 [edaBlock]).1.blocksAddr ∧
      LoadPromptBlocksRef.readHeap
          (LoadPromptBlocksRef.execute ⟨[], 0, []⟩ 0 [edaBlock]).2 e.addr =
        LoadPromptBlocksRef.readHeap (LoadPromptBlocksRef.execute ⟨[], 0, []⟩ 0 [edaBlock]).2
          (LoadPromptBlocksRef.execute ⟨[], 0, []⟩ 0 [edaBlock]).1.blocksAddr :=
  c10_defensive_copy_amended ⟨[], 0, []⟩ 0 [edaBlock] (by decide)

/-- A character admitted by the block-name pattern is not whitespace. -/
theorem validNameChar_not_ws (c : Char) (h : validNameChar c = true) : jsIsWS c = false := by
  by_contra hws
  rw [Bool.not_eq_false] at hws
  simp only [jsIsWS, Bool.or_eq_true, decide_eq_true_eq] at hws
  obtain ((((((h1 | h1) | h1) | h1) | h1) | h1) | h1) := hws <;>
    (subst h1; exact absurd h (by decide))

/-- `dropWhile` is the identity on a list without whitespace. -/
theorem dropWhile_ws_of_none {l : List Char} (h : ∀ c ∈ l, jsIsWS c = false) :
    l.dropWhile jsIsWS = l := by
  cases l with
  | nil => rfl
  | cons c cs =>
    rw [List.dropWhile_cons, h c (List.mem_cons_self c cs)]
    simp

/-- Trimming is the identity on a character list without whitespace. -/
theorem trimChars_of_no_ws {l : List Char} (h : ∀ c ∈ l, jsIsWS c = false) :
    trimChars l = l := by
  unfold trimChars
  rw [dropWhile_ws_of_none h,
    dropWhile_ws_of_none (fun c hc => h c (List.mem_reverse.mp hc)), List.reverse_reverse]

/-- A well-formed block name is unchanged by `trim()` (its pattern admits no
whitespace characters). -/
theorem jsTrim_of_valid_name (s : String) (h : isValidBlockName s = true) :
    jsTrim s = s := by
  unfold isValidBlockName at h
  rw [Bool.and_eq_true] at h
  have hall := List.all_eq_true.mp h.2
  show String.mk (trimChars s.data) = s
  rw [trimChars_of_no_ws (fun c hc => validNameChar_not_ws c (hall c hc))]

/-- A well-formed block name is non-empty. -/
theorem valid_name_ne_empty (s : String) (h : isValidBlockName s = true) : s ≠ "" := by
  intro he
  subst he
  exact absurd h (by decide)

/-- A valid category string is one of the four enumeration values. -/
theorem category_string_cases (s : String) (h : isValidCategory s = true) :
    s = "analysis" ∨ s = "visualization" ∨ s = "reporting" ∨ s = "methodology" := by
  unfold isValidCategory categoryOfString at h
  split_ifs at h with h1 h2 h3 h4
  · exact Or.inl h1
  · exact Or.inr (Or.inl h2)
  · exact Or.inr (Or.inr (Or.inl h3))
  · exact Or.inr (Or.inr (Or.inr h4))
  · exact absurd h (by decide)

/-- `categoryToString` inverts `categoryOfString`. -/
theorem categoryToString_of (s : String) (c : PromptCategory)
    (h : categoryOfString s = some c) : categoryToString c = s := by
  unfold categoryOfString at h
  split_ifs at h with h1 h2 h3 h4
  · injection h with h5; rw [← h5, h1]; rfl
  · injection h with h5; rw [← h5, h2]; rfl
  · injection h with h5; rw [← h5, h3]; rfl
  · injection h with h5; rw [← h5, h4]; rfl

/-- C9 (amended): for valid data whose `name`, `prompt` and (when present)
`description` are already trimmed, `create` succeeds and `toData()` returns
exactly the input with the documented defaults filled in for omitted
optional fields.  (Untrimmed string fields come back trimmed — the
counterexample.) -/
theorem c9_roundtrip_amended (d : PromptBlockData)
    (hname : isValidBlockName d.name = true)
    (hprompt : jsTrim d.prompt = d.prompt)
    (hpne : d.prompt ≠ "")
    (hdesc : ∀ s, d.description = some s → jsTrim s = s)
    (hcat : isValidCategory d.category = true)
    (hvars : ∀ v ∈ d.vars.getD [], jsTrim v.name ≠ "")
    (hprio : 0 ≤ d.priority.getD 50 ∧ d.priority.getD 50 ≤ 100) :
    (PromptBlock.create d).map PromptBlock.toData = .ok (withDefaults d) := by
  obtain ⟨c, hc⟩ := Option.isSome_iff_exists.mp hcat
  have hn : jsTrim d.name = d.name := jsTrim_of_valid_name _ hname
  have hn0 : d.name ≠ "" := valid_name_ne_empty _ hname
  have hct : jsTrim d.category = d.category ∧ d.category ≠ "" := by
    rcases category_string_cases d.category hcat with h | h | h | h <;> rw [h] <;>
      exact ⟨by decide, by decide⟩
  unfold PromptBlock.create
  rw [if_neg (by rw [hn]; exact hn0)]
  rw [if_neg (by rw [hprompt]; exact hpne)]
  rw [if_neg (by rw [hct.1]; exact hct.2)]
  rw [hc]
  simp only []
  rw [if_neg (by simp [hname])]
  rw [if_neg (by
    simp only [List.any_eq_true, decide_eq_true_eq, not_exists]
    intro v hv
    exact hvars v hv.1 hv.2)]
  rw [if_neg (by push_neg; omega)]
  have hdesc2 : jsOrElse (Option.map jsTrim d.description) "" = d.description.getD "" := by
    cases hd : d.description with
    | none => rfl
    | some s => simp [jsOrElse_empty, hdesc s hd]
  simp [Except.map, PromptBlock.toData, withDefaults, hn, hprompt,
    categoryToString_of _ _ hc, hdesc2]

/-- C9 (witness): the amended round-trip at concrete, already-trimmed valid
data. -/
theorem c9_witness :
    (PromptBlock.create dataTrimmed).map PromptBlock.toData = .ok (withDefaults dataTrimmed) :=
  c9_roundtrip_amended dataTrimmed (by decide) (by decide) (by decide)
    (by intro s hs; injection hs with h; rw [← h]; decide)
    (by decide) (by intro v hv; exact absurd hv (List.not_mem_nil v)) (by decide)

/-- C9 (counterexample): `dataUntrimmed` satisfies every condition of the
claim (well-formed name, non-empty prompt, valid category, priority 50,
named variables), `create` succeeds on it, yet `toData()` does NOT
round-trip it: `create` stores `prompt.trim()`, so the trailing space of
`"p "` is lost. -/
theorem c9_counterexample :
    ((PromptBlock.create dataUntrimmed).map PromptBlock.toData).isOk = true ∧
    (PromptBlock.create dataUntrimmed).map PromptBlock.toData ≠
      .ok (withDefaults dataUntrimmed) := by
  decide

/-- C6: evaluating `loadByName` twice at the failing input.  The first call
misses the memo cache, loads `x` from the workspace and reports
`source = "workspace"`; the second call is answered from the cache and
reports `source = "ws/prompts/x.yaml"` — the FILE PATH, not one of the three
declared source tags, because `cacheBlock(cacheKey, block, filePath)` stores
the path in the entry's `source` field. -/
theorem c6_cached_source_is_file_path :
    (let call1 := FileSystemPromptBlockRepository.loadByName cfgWD fsBoth [] 0 "x"
     let call2 := FileSystemPromptBlockRepository.loadByName cfgWD fsBoth call1.2 1 "x"
     call1.1.source = "workspace" ∧
     call2.1.success = true ∧
     call2.1.source = "ws/prompts/x.yaml" ∧
     ¬ (call2.1.source = "workspace" ∨ call2.1.source = "global" ∨
        call2.1.source = "defaults")) := by
  decide

/-- C10 (counterexample): a cache HIT of the load use case returns the
cached collection itself, not a copy.  Starting from the empty state, the
first `execute` (miss) caches a copy at address 1 and returns address 0;
the second `execute` (hit) returns address 1 — the cached array.  A caller
that then empties the array at the returned address changes what the third
`execute` (another hit) observes: the cached contents became `[]`. -/
theorem c10_counterexample :
    (let s0 : LoadPromptBlocksRef.HState := ⟨[], 0, []⟩
     let step1 := LoadPromptBlocksRef.execute s0 0 [edaBlock]
     let step2 := LoadPromptBlocksRef.execute step1.2 1 [edaBlock]
     let cachedAddr := (step1.2.cache.find? (fun p => p.1 = "all")).map (fun p => p.2.addr)
     step2.1.fromCache = true ∧
     some step2.1.blocksAddr = cachedAddr ∧
     (let mutated := LoadPromptBlocksRef.writeHeap step2.2 step2.1.blocksAddr []
      let step3 := LoadPromptBlocksRef.execute mutated 2 [edaBlock]
      step3.1.fromCache = true ∧
      LoadPromptBlocksRef.readHeap step3.2 step3.1.blocksAddr = [] ∧
      ([] : List PromptBlock) ≠ [edaBlock])) := by
  decide

/-- Membership in the keep-first deduplication: an element appears iff it
appears in the input and was not already seen. -/
theorem mem_dedupFirstAux {α : Type} [DecidableEq α] (l : List α) :
    ∀ (seen : List α) (c : α), c ∈ dedupFirstAux seen l ↔ c ∈ l ∧ c ∉ seen := by
  induction l with
  | nil => simp [dedupFirstAux]
  | cons a as ih =>
    intro seen c
    unfold dedupFirstAux
    by_cases ha : a ∈ seen
    · rw [if_pos ha, ih]
      constructor
      · rintro ⟨h1, h2⟩
        exact ⟨List.mem_cons_of_mem a h1, h2⟩
      · rintro ⟨h1, h2⟩
        rcases List.mem_cons.mp h1 with rfl | h1'
        · exact absurd ha h2
        · exact ⟨h1', h2⟩
    · rw [if_neg ha]
      simp only [List.mem_cons, ih]
      constructor
      · rintro (rfl | ⟨h1, h2⟩)
        · exact ⟨Or.inl rfl, ha⟩
        · exact ⟨Or.inr h1, fun hs => h2 (Or.inr hs)⟩
      · rintro ⟨(rfl | h1), h2⟩
        · exact Or.inl rfl
        · by_cases hca : c = a
          · exact Or.inl hca
          · exact Or.inr ⟨h1, by simp [List.mem_cons, hca, h2]⟩

/-- The keep-first deduplication has no duplicates. -/
theorem nodup_dedupFirstAux {α : Type} [DecidableEq α] (l : List α) :
    ∀ seen : List α, (dedupFirstAux seen l).Nodup := by
  induction l with
  | nil => intro seen; simp [dedupFirstAux]
  | cons a as ih =>
    intro seen
    unfold dedupFirstAux
    by_cases ha : a ∈ seen
    · rw [if_pos ha]; exact ih seen
    · rw [if_neg ha]
      refine List.nodup_cons.mpr ⟨?_, ih (a :: seen)⟩
      intro hmem
      exact ((mem_dedupFirstAux as (a :: seen) a).mp hmem).2 (List.mem_cons_self a seen)

/-- Membership survives `dedupFirst`. -/
theorem mem_dedupFirst {α : Type} [DecidableEq α] (l : List α) (c : α) :
    c ∈ dedupFirst l ↔ c ∈ l := by
  unfold dedupFirst
  rw [mem_dedupFirstAux]
  simp

/-- `dedupFirst` has no duplicates. -/
theorem nodup_dedupFirst {α : Type} [DecidableEq α] (l : List α) : (dedupFirst l).Nodup :=
  nodup_dedupFirstAux l []

/-- `dedupFirst` is a permutation of Mathlib's `dedup` (both are
duplicate-free and carry the same members). -/
theorem dedupFirst_perm_dedup {α : Type} [DecidableEq α] (l : List α) :
    List.Perm (dedupFirst l) l.dedup :=
  (List.perm_ext_iff_of_nodup (nodup_dedupFirst l) l.nodup_dedup).mpr
    (fun a => by rw [mem_dedupFirst, List.mem_dedup])

/-- Counting by filtering equals `List.count`. -/
theorem length_filter_eq_count {α : Type} [DecidableEq α] (cs : List α) (c : α) :
    (cs.filter (fun x => x = c)).length = cs.count c := by
  induction cs with
  | nil => rfl
  | cons a as ih =>
    by_cases h : a = c <;> simp [List.filter_cons, List.count_cons, h, ih]

/-- Summing, over the distinct values of a list, the number of occurrences
of each value, recovers the list's length. -/
theorem sum_filter_lengths {α : Type} [DecidableEq α] (cs : List α) :
    ((dedupFirst cs).map (fun c => (cs.filter (fun x => x = c)).length)).sum = cs.length := by
  have hfun : (fun c => (cs.filter (fun x => x = c)).length) = (fun c => cs.count c) :=
    funext fun c => length_filter_eq_count cs c
  rw [hfun, ((dedupFirst_perm_dedup cs).map (fun c => cs.count c)).sum_eq]
  exact List.sum_map_count_dedup_eq_length cs

/-- Filtering an activation list by category, then counting, is counting
the matching entries of the category sequence. -/
theorem length_filter_cat (l : List ActivePromptConfig) (c : PromptCategory) :
    (l.filter (fun q => q.block.category = c)).length
      = ((l.map (fun p => p.block.category)).filter (fun x => x = c)).length := by
  induction l with
  | nil => rfl
  | cons p ps ih =>
    simp only [List.map_cons, List.filter_cons]
    by_cases hc : p.block.category = c
    · simp [hc, ih]
    · simp [hc, ih]

/-- The group keys are the distinct categories in first-seen order. -/
theorem groupByCategory_keys (l : List ActivePromptConfig) :
    (EnhanceSystemPrompt.groupByCategory l).map Prod.fst
      = dedupFirst (l.map (fun p => p.block.category)) := by
  unfold EnhanceSystemPrompt.groupByCategory
  rw [List.map_map]
  have hid : (Prod.fst ∘ fun c : PromptCategory =>
      (c, l.filter (fun q => q.block.category = c))) = id := rfl
  rw [hid, List.map_id]

/-- Every group consists of the input's configs of its category, and its
category occurs in the input. -/
theorem groupByCategory_mem (l : List ActivePromptConfig) {c : PromptCategory}
    {ps : List ActivePromptConfig} (h : (c, ps) ∈ EnhanceSystemPrompt.groupByCategory l) :
    ps = l.filter (fun q => q.block.category = c)
      ∧ c ∈ l.map (fun p => p.block.category) := by
  unfold EnhanceSystemPrompt.groupByCategory at h
  rcases List.mem_map.mp h with ⟨c', hc', heq⟩
  obtain ⟨rfl, rfl⟩ := Prod.mk.injEq .. |>.mp heq.symm
  exact ⟨rfl, (mem_dedupFirst _ _).mp hc'⟩

/-- Every config's category group is present. -/
theorem groupByCategory_cover (l : List ActivePromptConfig) (p : ActivePromptConfig)
    (hp : p ∈ l) :
    (p.block.category, l.filter (fun q => q.block.category = p.block.category))
      ∈ EnhanceSystemPrompt.groupByCategory l := by
  unfold EnhanceSystemPrompt.groupByCategory
  exact List.mem_map.mpr ⟨p.block.category,
    (mem_dedupFirst _ _).mpr (List.mem_map.mpr ⟨p, hp, rfl⟩), rfl⟩

/-- The head of the sorted list is a maximum of the input. -/
theorem sortByPriority_head_max (l : List ActivePromptConfig) {sel : ActivePromptConfig}
    {rest : List ActivePromptConfig} (h : EnhanceSystemPrompt.sortByPriority l = sel :: rest) :
    sel ∈ l ∧ ∀ x ∈ l, x.priority ≤ sel.priority := by
  have hperm := sortByPriority_perm l
  rw [h] at hperm
  constructor
  · exact hperm.mem_iff.mp (List.mem_cons_self _ _)
  · intro x hx
    have hx' : x ∈ sel :: rest := hperm.mem_iff.mpr hx
    rcases List.mem_cons.mp hx' with rfl | hxr
    · exact le_refl _
    · have hpw := sortByPriority_pairwise l
      rw [h] at hpw
      exact (List.pairwise_cons.mp hpw).1 x hxr

/-- `resolveCategory` on a non-empty group: exactly one survivor, a member
of the group with maximal priority; one conflict record per loser, each
naming a group member as `previousBlock` and the survivor as
`selectedBlock`. -/
theorem resolveCategory_spec (c : PromptCategory) (ps : List ActivePromptConfig)
    (h : ps ≠ []) :
    ∃ sel, (EnhanceSystemPrompt.resolveCategory c ps).1 = [sel] ∧ sel ∈ ps ∧
      (∀ x ∈ ps, x.priority ≤ sel.priority) ∧
      (EnhanceSystemPrompt.resolveCategory c ps).2.length + 1 = ps.length ∧
      (∀ cf ∈ (EnhanceSystemPrompt.resolveCategory c ps).2,
        cf.category = c ∧ cf.selectedBlock = sel.block.name ∧
        ∃ loser ∈ ps, cf.previousBlock = some loser.block.name) := by
  rcases ps with _ | ⟨p, _ | ⟨q, rest⟩⟩
  · exact absurd rfl h
  · exact ⟨p, rfl, List.mem_singleton.mpr rfl,
      fun x hx => by rcases List.mem_singleton.mp hx with rfl; exact le_refl _,
      rfl, fun cf hcf => absurd hcf (List.not_mem_nil cf)⟩
  · cases hs : EnhanceSystemPrompt.sortByPriority (p :: q :: rest) with
    | nil =>
      have hlen := sortByPriority_length (p :: q :: rest)
      rw [hs] at hlen
      simp at hlen
    | cons sel conflicted =>
      have hperm := sortByPriority_perm (p :: q :: rest)
      rw [hs] at hperm
      refine ⟨sel, ?_, (sortByPriority_head_max _ hs).1, (sortByPriority_head_max _ hs).2,
        ?_, ?_⟩
      · simp [EnhanceSystemPrompt.resolveCategory, hs]
      · have hlen := sortByPriority_length (p :: q :: rest)
        rw [hs] at hlen
        simp only [EnhanceSystemPrompt.resolveCategory, hs, List.length_map]
        simp only [List.length_cons] at hlen ⊢
        omega
      · intro cf hcf
        simp only [EnhanceSystemPrompt.resolveCategory, hs] at hcf
        rcases List.mem_map.mp hcf with ⟨loser, hloser, rfl⟩
        exact ⟨rfl, rfl, loser,
          hperm.mem_iff.mp (List.mem_cons_of_mem sel hloser), rfl⟩

/-- `resolveGroups` over non-empty groups: one survivor per group, with the
group-wise counting and conflict-record structure. -/
theorem resolveGroups_spec (gs : List (PromptCategory × List ActivePromptConfig))
    (hne : ∀ g ∈ gs, g.2 ≠ []) :
    (EnhanceSystemPrompt.resolveGroups gs).1.length = gs.length ∧
    (EnhanceSystemPrompt.resolveGroups gs).2.length + gs.length
      = (gs.map (fun g => g.2.length)).sum ∧
    (∀ c ps, (c, ps) ∈ gs → ∃ sel, sel ∈ (EnhanceSystemPrompt.resolveGroups gs).1 ∧
      sel ∈ ps ∧ ∀ x ∈ ps, x.priority ≤ sel.priority) ∧
    (∀ cf ∈ (EnhanceSystemPrompt.resolveGroups gs).2, ∃ c ps sel,
      (c, ps) ∈ gs ∧ cf.category = c ∧ sel ∈ (EnhanceSystemPrompt.resolveGroups gs).1 ∧
      sel ∈ ps ∧ cf.selectedBlock = sel.block.name ∧
      ∃ loser ∈ ps, cf.previousBlock = some loser.block.name) := by
  induction gs with
  | nil => simp [EnhanceSystemPrompt.resolveGroups]
  | cons g rest ih =>
    obtain ⟨c0, ps0⟩ := g
    have h0 : ps0 ≠ [] := hne (c0, ps0) (List.mem_cons_self _ _)
    obtain ⟨sel0, hs1, hs2, hs3, hs4, hs5⟩ := resolveCategory_spec c0 ps0 h0
    obtain ⟨ih1, ih2, ih3, ih4⟩ := ih (fun g hg => hne g (List.mem_cons_of_mem _ hg))
    refine ⟨?_, ?_, ?_, ?_⟩
    · simp [EnhanceSystemPrompt.resolveGroups, hs1, ih1]
    · simp only [EnhanceSystemPrompt.resolveGroups, List.length_append, List.map_cons,
        List.sum_cons, List.length_cons]
      omega
    · intro c ps hmem
      rcases List.mem_cons.mp hmem with heq | hmem'
      · obtain ⟨rfl, rfl⟩ := Prod.mk.injEq .. |>.mp heq
        refine ⟨sel0, ?_, hs2, hs3⟩
        simp only [EnhanceSystemPrompt.resolveGroups]
        exact List.mem_append_left _ (hs1 ▸ List.mem_singleton.mpr rfl)
      · obtain ⟨sel, hsel1, hsel2, hsel3⟩ := ih3 c ps hmem'
        refine ⟨sel, ?_, hsel2, hsel3⟩
        simp only [EnhanceSystemPrompt.resolveGroups]
        exact List.mem_append_right _ hsel1
    · intro cf hcf
      simp only [EnhanceSystemPrompt.resolveGroups] at hcf
      rcases List.mem_append.mp hcf with hl | hr
      · obtain ⟨hc1, hc2, loser, hlo, hloeq⟩ := hs5 cf hl
        refine ⟨c0, ps0, sel0, List.mem_cons_self _ _, hc1, ?_, hs2, hc2, loser, hlo, hloeq⟩
        simp only [EnhanceSystemPrompt.resolveGroups]
        exact List.mem_append_left _ (hs1 ▸ List.mem_singleton.mpr rfl)
      · obtain ⟨c, ps, sel, hmem, hc1, hselm, hselps, hc2, loser, hlo, hloeq⟩ := ih4 cf hr
        refine ⟨c, ps, sel, List.mem_cons_of_mem _ hmem, hc1, ?_, hselps, hc2,
          loser, hlo, hloeq⟩
        simp only [EnhanceSystemPrompt.resolveGroups]
        exact List.mem_append_right _ hselm

/-- Every group produced by `groupByCategory` is non-empty. -/
theorem groupByCategory_ne_nil (l : List ActivePromptConfig)
    (g : PromptCategory × List ActivePromptConfig)
    (hg : g ∈ EnhanceSystemPrompt.groupByCategory l) : g.2 ≠ [] := by
  obtain ⟨c, ps⟩ := g
  obtain ⟨hps, hc⟩ := groupByCategory_mem l hg
  rcases List.mem_map.mp hc with ⟨p, hp, hpc⟩
  have : p ∈ l.filter (fun q => q.block.category = c) :=
    List.mem_filter.mpr ⟨hp, by simp [hpc]⟩
  rw [hps]
  exact List.ne_nil_of_mem this

/-- The total size of the groups is the size of the input. -/
theorem groupByCategory_sum_sizes (l : List ActivePromptConfig) :
    ((EnhanceSystemPrompt.groupByCategory l).map (fun g => g.2.length)).sum = l.length := by
  unfold EnhanceSystemPrompt.groupByCategory
  rw [List.map_map]
  have hfun : ((fun g : PromptCategory × List ActivePromptConfig => g.2.length) ∘
      fun c => (c, l.filter (fun q => q.block.category = c)))
      = fun c => ((l.map (fun p => p.block.category)).filter (fun x => x = c)).length :=
    funext fun c => length_filter_cat l c
  rw [hfun, sum_filter_lengths]
  exact List.length_map l _

/-- C1: with N active configs spanning K distinct categories (every config
carrying a defined effective priority, as the model's `priority` field
makes intrinsic), `execute` returns exactly K applied prompts — one
survivor per category, of maximal effective priority within its category —
and exactly N − K conflict-resolution records, each naming a loser from
the input as `previousBlock` and its category's survivor as
`selectedBlock`. -/
theorem c1_survivors_and_conflicts (originalPrompt : String)
    (l : List ActivePromptConfig) :
    (EnhanceSystemPrompt.execute originalPrompt l).appliedPrompts.length
      = numCategories l ∧
    (EnhanceSystemPrompt.execute originalPrompt l).conflictResolution.length
      = l.length - numCategories l ∧
    (∀ cf ∈ (EnhanceSystemPrompt.execute originalPrompt l).conflictResolution,
      ∃ w ∈ (EnhanceSystemPrompt.execute originalPrompt l).appliedPrompts,
        w.block.category = cf.category ∧ cf.selectedBlock = w.block.name ∧
        ∃ loser ∈ l, cf.previousBlock = some loser.block.name) ∧
    (∀ p ∈ l, ∃ w ∈ (EnhanceSystemPrompt.execute originalPrompt l).appliedPrompts,
      w.block.category = p.block.category ∧ p.priority ≤ w.priority) := by
  obtain ⟨h1, h2, h3, h4⟩ :=
    resolveGroups_spec (EnhanceSystemPrompt.groupByCategory l) (groupByCategory_ne_nil l)
  have hK : (EnhanceSystemPrompt.groupByCategory l).length = numCategories l := by
    have := congrArg List.length (groupByCategory_keys l)
    simpa [numCategories] using this
  have happ : (EnhanceSystemPrompt.execute originalPrompt l).appliedPrompts
      = EnhanceSystemPrompt.sortByPriority
          (EnhanceSystemPrompt.resolveConflicts l).1 := rfl
  have hconf : (EnhanceSystemPrompt.execute originalPrompt l).conflictResolution
      = (EnhanceSystemPrompt.resolveConflicts l).2 := rfl
  have hsum := groupByCategory_sum_sizes l
  have hmemapp : ∀ x, x ∈ (EnhanceSystemPrompt.resolveConflicts l).1 →
      x ∈ (EnhanceSystemPrompt.execute originalPrompt l).appliedPrompts := by
    intro x hx
    rw [happ]
    exact (sortByPriority_perm _).mem_iff.mpr hx
  refine ⟨?_, ?_, ?_, ?_⟩
  · rw [happ, sortByPriority_length]
    rw [EnhanceSystemPrompt.resolveConflicts] at *
    rw [h1, hK]
  · rw [hconf]
    rw [EnhanceSystemPrompt.resolveConflicts] at *
    omega
  · intro cf hcf
    rw [hconf] at hcf
    rw [EnhanceSystemPrompt.resolveConflicts] at *
    obtain ⟨c, ps, sel, hg, hcat, hselm, hselps, hname, loser, hlo, hloeq⟩ := h4 cf hcf
    obtain ⟨hps, _⟩ := groupByCategory_mem l hg
    refine ⟨sel, hmemapp sel hselm, ?_, hname.symm ▸ rfl, loser, ?_, hloeq⟩
    · have := List.mem_filter.mp (hps ▸ hselps)
      simp only [decide_eq_true_eq] at this
      rw [this.2, hcat]
    · exact (List.mem_filter.mp (hps ▸ hlo)).1
  · intro p hp
    rw [EnhanceSystemPrompt.resolveConflicts] at *
    obtain ⟨sel, hselm, hselps, hmax⟩ :=
      h3 p.block.category (l.filter (fun q => q.block.category = p.block.category))
        (groupByCategory_cover l p hp)
    refine ⟨sel, hmemapp sel hselm, ?_, ?_⟩
    · have := List.mem_filter.mp hselps
      simpa using this.2
    · exact hmax p (List.mem_filter.mpr ⟨hp, by simp⟩)

/-- C1 (witness): three configs across two categories (two analysis blocks
and a reporting block) yield two applied prompts and one conflict record. -/
theorem c1_witness :
    (EnhanceSystemPrompt.execute "You are an AI assistant."
      [⟨edaBlock, none, 80⟩, ⟨blockA, none, 50⟩, ⟨reportBlock, none, 75⟩]).appliedPrompts.length
      = 2 ∧
    (EnhanceSystemPrompt.execute "You are an AI assistant."
      [⟨edaBlock, none, 80⟩, ⟨blockA, none, 50⟩,
        ⟨reportBlock, none, 75⟩]).conflictResolution.length = 1 := by
  have h := c1_survivors_and_conflicts "You are an AI assistant."
    [⟨edaBlock, none, 80⟩, ⟨blockA, none, 50⟩, ⟨reportBlock, none, 75⟩]
  exact ⟨by rw [h.1]; decide, by rw [h.2.1]; decide⟩


end OpenAnalyst
